import Mathlib

/-!
Shallow embedding of `src/emr_cli.py`, a CLI tool managing patient records
stored in a CSV file, together with proofs checking the specification's
claims against the code.

Modelling conventions:
* a store (the CSV file's data rows, in file order) is a `List Row`;
* Python `dict` rows become the `Row` structure of ten string fields,
  in the order of `FIELDNAMES`;
* Python exceptions (e.g. `ValueError` from `max([])` or `int("x")`)
  become `Option.none` results;
* `datetime.utcnow().isoformat()` timestamps are passed in as an opaque
  `now : String` parameter;
* Python string methods (`isdigit`, `lower`, `strip`, `int(...)`) are
  modelled over ASCII; the Unicode-only extensions of those methods are
  outside the inputs considered here.
-/

/-- One data row of the CSV store: the ten fields of `FIELDNAMES`, all strings,
as produced by `csv.DictReader`. -/
structure Row where
  id : String
  name : String
  age : String
  gender : String
  phone : String
  meds : String
  appointments : String
  notes : String
  created_at : String
  updated_at : String
deriving DecidableEq

/-- ASCII whitespace recognised by Python's `str.strip()` and `int()`:
space, tab, newline, carriage return, vertical tab, form feed. -/
def pyIsSpace (c : Char) : Bool :=
  c = ' ' || c = '\t' || c = '\n' || c = '\r' || c = Char.ofNat 11 || c = Char.ofNat 12

/-- Remove leading and trailing whitespace, as Python's `str.strip()`. -/
def stripEndWs (cs : List Char) : List Char :=
  ((cs.dropWhile pyIsSpace).reverse.dropWhile pyIsSpace).reverse

/-- Python `s.strip()` on strings. -/
def pyStrip (s : String) : String := ⟨stripEndWs s.data⟩

/-- Python `s.isdigit()` (ASCII): non-empty and every character a decimal digit. -/
def pyIsDigitStr (s : String) : Bool :=
  !s.data.isEmpty && s.data.all (fun c => c.isDigit)

/-- Numeric value of a string of decimal digits, most significant first:
what Python's `int(s)` returns on a string for which `s.isdigit()` holds. -/
def digitsVal (cs : List Char) : Nat :=
  cs.foldl (fun a c => 10 * a + (c.toNat - 48)) 0

/-- Value of an all-digit string, e.g. the `id` field after an `isdigit` check. -/
def strVal (s : String) : Nat := digitsVal s.data

/-- Decimal digits of `n`, least significant first, with enough fuel;
structural recursion on the fuel keeps the definition kernel-reducible. -/
def revDigitsAux : Nat → Nat → List Char
  | 0, _ => []
  | fuel + 1, n =>
      if n < 10 then [Nat.digitChar n]
      else Nat.digitChar (n % 10) :: revDigitsAux fuel (n / 10)

/-- Decimal digits of `n`, least significant first. -/
def natToRevDigits (n : Nat) : List Char := revDigitsAux (n + 1) n

/-- Python `str(n)` for a natural number: its decimal representation. -/
def pyStrNat (n : Nat) : String := ⟨(natToRevDigits n).reverse⟩

/-- Python `str(i)` for an integer: decimal representation with a sign when negative. -/
def pyStrInt (i : Int) : String :=
  if i < 0 then "-" ++ pyStrNat i.natAbs else pyStrNat i.toNat

/-- A run of digits possibly separated by single underscores,
continuing an initial digit: the tail part of Python's `int()` digit grammar. -/
def digitRun : List Char → Bool
  | [] => true
  | '_' :: c :: rest => c.isDigit && digitRun rest
  | ['_'] => false
  | c :: rest => c.isDigit && digitRun rest

/-- Python `int()` digit-group grammar: digits with single underscores between them. -/
def digitsU (cs : List Char) : Bool :=
  match cs with
  | [] => false
  | c :: rest => c.isDigit && digitRun rest

/-- Drop the underscores of a digit group before evaluating it. -/
def dropUnderscores (cs : List Char) : List Char :=
  cs.filter (fun c => c ≠ '_')

/-- Python `int(s)` in base 10 (ASCII): optional surrounding whitespace, an
optional sign, then digits with single underscores between them; `none`
models the `ValueError` raised on any other input. -/
def pyIntParse (s : String) : Option Int :=
  match stripEndWs s.data with
  | '+' :: rest =>
      if digitsU rest then some (digitsVal (dropUnderscores rest)) else none
  | '-' :: rest =>
      if digitsU rest then some (-(digitsVal (dropUnderscores rest) : Int)) else none
  | cs =>
      if digitsU cs then some (digitsVal (dropUnderscores cs)) else none

/-- Python `s.lower()` (ASCII). -/
def pyLower (s : String) : String := ⟨s.data.map Char.toLower⟩

/-- Whether `pre` is an initial segment of `l`. -/
def leadsWith : List Char → List Char → Bool
  | [], _ => true
  | _ :: _, [] => false
  | c :: cs, d :: ds => c = d && leadsWith cs ds

/-- Whether `needle` occurs contiguously inside `haystack`. -/
def occursIn (needle : List Char) : List Char → Bool
  | [] => leadsWith needle []
  | d :: ds => leadsWith needle (d :: ds) || occursIn needle ds

/-- Python's substring test `needle in haystack` on strings. -/
def pyInStr (needle haystack : String) : Bool :=
  occursIn needle.data haystack.data

/-! The Record Store and command handlers of `emr_cli.py`. -/

/-- Computes the next patient id, from `next_id` in `emr_cli.py`:
`"1"` for an empty list, otherwise one plus the maximum over the ids passing
`isdigit`; `none` models the `ValueError` that `max` raises on an empty list
(a non-empty store none of whose ids is numeric). -/
def next_id (rows : List Row) : Option String :=
  if rows.isEmpty then some "1"
  else
    match (rows.filter (fun r => pyIsDigitStr r.id)).map (fun r => strVal r.id) with
    | [] => none
    | x :: xs => some (pyStrNat (xs.foldl max x + 1))

/-- Arguments of the `add` subcommand after `argparse`: `--name` is required,
`--age` is an optional `int`, and the remaining flags are optional strings
(`--gender` defaults to `"O"`, `--meds`, `--appointments` and `--notes`
default to `""` in `parse_args`). -/
structure AddArgs where
  name : String
  age : Option Int
  gender : Option String
  phone : Option String
  meds : Option String
  appointments : Option String
  notes : Option String
deriving DecidableEq

/-- Python `x or ""` on an optional string: the empty string when `x` is
`None` (and the empty string maps to itself). -/
def orEmpty (x : Option String) : String := x.getD ""

/-- The record dict built by `add_patient` in `emr_cli.py`: the age becomes
`str(args.age)` only when `args.age` is truthy, so `None` and `0` both give
`""`; `created_at` and `updated_at` are both stamped `now`. -/
def addRecord (a : AddArgs) (now pid : String) : Row :=
  { id := pid
    name := pyStrip a.name
    age := match a.age with
           | none => ""
           | some n => if n = 0 then "" else pyStrInt n
    gender := orEmpty a.gender
    phone := orEmpty a.phone
    meds := orEmpty a.meds
    appointments := orEmpty a.appointments
    notes := orEmpty a.notes
    created_at := now
    updated_at := now }

/-- Build, append and persist the new record. -/
def add_patient (a : AddArgs) (now : String) (rows : List Row) :
    Option (List Row × String) :=
  match next_id rows with
  | none => none
  | some pid => some (rows ++ [addRecord a now pid], pid)

/-- Ordering used to sort rows in `list_patients`: Python's `sorted` with
`key=lambda row: int(row["id"])` compares the integer keys. Python's sort is
stable, and every stable sort computes the same output list, so it is
modelled by a stable insertion sort. -/
def keyRel (a b : Int × Row) : Prop := a.fst ≤ b.fst

instance : DecidableRel keyRel :=
  fun a b => inferInstanceAs (Decidable (a.fst ≤ b.fst))

instance : IsTotal (Int × Row) keyRel := ⟨fun a b => Int.le_total a.fst b.fst⟩

instance : IsTrans (Int × Row) keyRel := ⟨fun _ _ _ hab hbc => le_trans hab hbc⟩

/-- Decorate each row with its `int(row["id"])` sort key; `none` models the
`ValueError` raised as soon as some id fails to parse. -/
def keyRows : List Row → Option (List (Int × Row))
  | [] => some []
  | r :: rest =>
      match pyIntParse r.id with
      | none => none
      | some k =>
          match keyRows rest with
          | none => none
          | some ps => some ((k, r) :: ps)

/-- Python's `xs[:n]` slice: the first `n` elements for `n ≥ 0`, and all but
the last `-n` elements for negative `n`. -/
def pySlice {α : Type} (xs : List α) (n : Int) : List α :=
  if n < 0 then xs.take (xs.length - n.natAbs) else xs.take n.toNat

/-- Render a missing (empty) value as `"-"`, as `row["age"] or "-"` does. -/
def orDash (s : String) : String := if s = "" then "-" else s

/-- Python string formatting `{s:>w}`: right-align in a field of width `w`. -/
def pyRAlign (s : String) (w : Nat) : String :=
  ⟨List.replicate (w - s.length) ' '⟩ ++ s

/-- Python string formatting `{s:w}`: left-align in a field of width `w`. -/
def pyLAlign (s : String) (w : Nat) : String :=
  s ++ ⟨List.replicate (w - s.length) ' '⟩

/-- Python `s[:n]`: the first `n` characters. -/
def pyTakeStr (s : String) (n : Nat) : String := ⟨s.data.take n⟩

/-- The line printed for one row by `list_patients`:
`f'{row["id"]:>3} | {row["name"][:25]:25} | age:{row["age"] or "-":>3} | phone:{row["phone"] or "-"}'`. -/
def renderLine (r : Row) : String :=
  pyRAlign r.id 3 ++ " | " ++ pyLAlign (pyTakeStr r.name 25) 25 ++ " | age:" ++
    pyRAlign (orDash r.age) 3 ++ " | phone:" ++ orDash r.phone

/-- From `list_patients` in `emr_cli.py`: sort by `int(row["id"])` (raising,
i.e. `none`, when some id does not parse), compute the effective limit as
`args.limit or 100` (so a limit of `0` becomes `100`), slice, and render.
The `argparse` default for `--limit` is `20`. -/
def list_patients (limit : Int) (rows : List Row) : Option (List String) :=
  match keyRows rows with
  | none => none
  | some keyed =>
      let rows_sorted := (keyed.insertionSort keyRel).map Prod.snd
      let eff : Int := if limit = 0 then 100 else limit
      some ((pySlice rows_sorted eff).map renderLine)

/-- The match test of `search_patients`: the (already lowercased) query must
occur in the lowercased name or in the raw phone field — the phone is not
lowercased in the source. -/
def rowMatches (query : String) (r : Row) : Bool :=
  pyInStr query (pyLower r.name) || pyInStr query r.phone

/-- From `search_patients` in `emr_cli.py`: lowercase `args.name or ""` and
keep the rows whose name (lowercased) or phone (as stored) contains it. -/
def search_patients (nameArg : Option String) (rows : List Row) : List Row :=
  let query := pyLower (orEmpty nameArg)
  rows.filter (fun r => rowMatches query r)

/-- Arguments of the `update` subcommand after `argparse`: `--id` is a
required string, every other flag is optional (`none` when not supplied). -/
structure UpdateArgs where
  id : String
  name : Option String
  age : Option Int
  gender : Option String
  phone : Option String
  meds : Option String
  appointments : Option String
  notes : Option String
deriving DecidableEq

/-- The per-field patch applied to a matching row by `update_patient`.
The source assigns the fields one by one under independent conditions
(`if args.name:` ... truthiness for name/gender/phone, `is not None` for
age/meds/appointments/notes), so the sequential assignments are modelled as
one simultaneous record update; `updated_at` is always refreshed. -/
def applyUpdate (a : UpdateArgs) (now : String) (r : Row) : Row :=
  { r with
    name := match a.name with
            | some s => if s = "" then r.name else s
            | none => r.name
    age := match a.age with
           | some n => pyStrInt n
           | none => r.age
    gender := match a.gender with
              | some s => if s = "" then r.gender else s
              | none => r.gender
    phone := match a.phone with
             | some s => if s = "" then r.phone else s
             | none => r.phone
    meds := match a.meds with
            | some s => s
            | none => r.meds
    appointments := match a.appointments with
                    | some s => s
                    | none => r.appointments
    notes := match a.notes with
             | some s => s
             | none => r.notes
    updated_at := now }

/-- From `update_patient` in `emr_cli.py`: patch the first row whose id
equals `str(args.id)` (then `break`), returning the new store and whether a
match was found; when nothing matches the store is not rewritten. -/
def update_patient (a : UpdateArgs) (now : String) : List Row → List Row × Bool
  | [] => ([], false)
  | r :: rest =>
      if r.id = a.id then (applyUpdate a now r :: rest, true)
      else
        let p := update_patient a now rest
        (r :: p.fst, p.snd)

/-- From `delete_patient` in `emr_cli.py`: keep the rows whose id differs
from the target; when the length is unchanged report not-found and do not
rewrite the file (the original store is returned unchanged). -/
def delete_patient (target : String) (rows : List Row) : List Row × Bool :=
  let new_rows := rows.filter (fun r => decide (r.id ≠ target))
  if new_rows.length = rows.length then (rows, false) else (new_rows, true)

/-- JSON values as produced by `json.dump` on a list of string-valued dicts:
only strings, arrays and objects can occur. -/
inductive Json where
  | str (s : String)
  | arr (elems : List Json)
  | obj (fields : List (String × Json))

/-- The JSON object `json.dump` writes for one row: the ten fields in
`FIELDNAMES` order, every value a string. -/
def rowToJson (r : Row) : Json :=
  .obj [("id", .str r.id), ("name", .str r.name), ("age", .str r.age),
        ("gender", .str r.gender), ("phone", .str r.phone),
        ("meds", .str r.meds), ("appointments", .str r.appointments),
        ("notes", .str r.notes), ("created_at", .str r.created_at),
        ("updated_at", .str r.updated_at)]

/-- From `export_data` in `emr_cli.py`: the JSON array written to the output
file is the full ordered sequence of rows, each as an object. -/
def export_data (rows : List Row) : Json :=
  .arr (rows.map rowToJson)

/-- Read a string-valued field of a JSON object. -/
def getStr (j : Json) (key : String) : Option String :=
  match j with
  | .obj fields =>
      match fields.lookup key with
      | some (.str s) => some s
      | _ => none
  | _ => none

/-- Decode one exported JSON object back into a row. -/
def jsonToRow (j : Json) : Option Row := do
  let id ← getStr j "id"
  let name ← getStr j "name"
  let age ← getStr j "age"
  let gender ← getStr j "gender"
  let phone ← getStr j "phone"
  let meds ← getStr j "meds"
  let appointments ← getStr j "appointments"
  let notes ← getStr j "notes"
  let created_at ← getStr j "created_at"
  let updated_at ← getStr j "updated_at"
  pure { id := id, name := name, age := age, gender := gender, phone := phone,
         meds := meds, appointments := appointments, notes := notes,
         created_at := created_at, updated_at := updated_at }

/-- Decode a list of exported JSON objects. -/
def decodeRowList : List Json → Option (List Row)
  | [] => some []
  | j :: js =>
      match jsonToRow j, decodeRowList js with
      | some r, some rs => some (r :: rs)
      | _, _ => none

/-- Parse an exported JSON document back into the sequence of rows. -/
def jsonToRows : Json → Option (List Row)
  | .arr es => decodeRowList es
  | _ => none

/-- From `stats` in `emr_cli.py`: the total row count, and the mean of the
ages passing `isdigit` (`none` models Python's `None`, printed as `"-"`,
when no age is numeric). The mean is the rational `sum(ages)/len(ages)`. -/
def stats (rows : List Row) : Nat × Option ℚ :=
  let total := rows.length
  let ages := (rows.filter (fun r => pyIsDigitStr r.age)).map (fun r => strVal r.age)
  (total, if ages.isEmpty then none
          else some ((ages.sum : ℚ) / (ages.length : ℚ)))

/-! Helper lemmas about decimal representations and list maxima. -/

theorem digitsVal_append (cs : List Char) (c : Char) :
    digitsVal (cs ++ [c]) = 10 * digitsVal cs + (c.toNat - 48) := by
  simp [digitsVal, List.foldl_append]

theorem digitChar_toNat (d : Nat) (h : d < 10) :
    (Nat.digitChar d).toNat = 48 + d := by
  interval_cases d <;> decide

theorem digitChar_isDigit (d : Nat) (h : d < 10) :
    (Nat.digitChar d).isDigit = true := by
  interval_cases d <;> decide

theorem revDigitsAux_spec (fuel : Nat) :
    ∀ n, n < fuel →
      digitsVal (revDigitsAux fuel n).reverse = n ∧ revDigitsAux fuel n ≠ [] ∧
        ∀ c ∈ revDigitsAux fuel n, c.isDigit = true := by
  induction fuel with
  | zero => intro n hn; omega
  | succ fuel ih =>
    intro n hn
    rw [revDigitsAux]
    by_cases h : n < 10
    · simp only [h, if_true]
      refine ⟨?_, by simp, ?_⟩
      · simp [digitsVal, digitChar_toNat n h]
      · intro c hc
        simp only [List.mem_singleton] at hc
        exact hc ▸ digitChar_isDigit n h
    · have hdiv : n / 10 < n := Nat.div_lt_self (by omega) (by omega)
      obtain ⟨ih1, ih2, ih3⟩ := ih (n / 10) (by omega)
      simp only [h, if_false, List.reverse_cons]
      refine ⟨?_, by simp, ?_⟩
      · rw [digitsVal_append, ih1, digitChar_toNat (n % 10) (Nat.mod_lt n (by omega))]
        omega
      · intro c hc
        rcases List.mem_cons.mp hc with hc | hc
        · exact hc ▸ digitChar_isDigit (n % 10) (Nat.mod_lt n (by omega))
        · exact ih3 c hc

theorem natToRevDigits_spec (n : Nat) :
    digitsVal (natToRevDigits n).reverse = n ∧ natToRevDigits n ≠ [] ∧
      ∀ c ∈ natToRevDigits n, c.isDigit = true :=
  revDigitsAux_spec (n + 1) n (Nat.lt_succ_self n)

theorem strVal_pyStrNat (n : Nat) : strVal (pyStrNat n) = n :=
  (natToRevDigits_spec n).1

theorem pyIsDigitStr_pyStrNat (n : Nat) : pyIsDigitStr (pyStrNat n) = true := by
  obtain ⟨-, h2, h3⟩ := natToRevDigits_spec n
  simp only [pyIsDigitStr, pyStrNat, Bool.and_eq_true, Bool.not_eq_true']
  constructor
  · simpa [List.isEmpty_iff] using h2
  · rw [List.all_eq_true]
    intro c hc
    exact h3 c (List.mem_reverse.mp hc)

theorem le_foldl_max (xs : List Nat) (x : Nat) :
    x ≤ xs.foldl max x ∧ ∀ y ∈ xs, y ≤ xs.foldl max x := by
  induction xs generalizing x with
  | nil => simp
  | cons a as ih =>
    obtain ⟨ih1, ih2⟩ := ih (max x a)
    simp only [List.foldl_cons]
    refine ⟨le_trans (le_max_left x a) ih1, ?_⟩
    intro y hy
    rcases List.mem_cons.mp hy with hy | hy
    · rw [hy]
      exact le_trans (le_max_right x a) ih1
    · exact ih2 y hy

theorem foldl_max_mem (xs : List Nat) (x : Nat) :
    xs.foldl max x = x ∨ xs.foldl max x ∈ xs := by
  induction xs generalizing x with
  | nil => simp
  | cons a as ih =>
    simp only [List.foldl_cons]
    rcases ih (max x a) with h | h
    · rcases max_choice x a with hm | hm
      · left
        rw [h, hm]
      · right
        rw [h, hm]
        exact List.mem_cons_self a as
    · right
      exact List.mem_cons_of_mem a h

/-- A concrete row with the given id, name, age, gender and phone,
all free-text fields empty. -/
def mkRow (i n a g p : String) : Row :=
  { id := i, name := n, age := a, gender := g, phone := p, meds := "",
    appointments := "", notes := "", created_at := "", updated_at := "" }

/-- The list of numeric id values `next_id` takes its maximum over. -/
def numericIds (rows : List Row) : List Nat :=
  (rows.filter (fun r => pyIsDigitStr r.id)).map (fun r => strVal r.id)

theorem next_id_eq_of_ids (rows : List Row) (x : Nat) (xs : List Nat)
    (hne : rows.isEmpty = false) (hids : numericIds rows = x :: xs) :
    next_id rows = some (pyStrNat (xs.foldl max x + 1)) := by
  rw [next_id, hne]
  rw [numericIds] at hids
  simp only [hids]
  simp

theorem foldl_max_is_max (rows : List Row) (x : Nat) (xs : List Nat)
    (hids : numericIds rows = x :: xs) :
    (∃ r ∈ rows, pyIsDigitStr r.id = true ∧ strVal r.id = xs.foldl max x) ∧
    (∀ r ∈ rows, pyIsDigitStr r.id = true → strVal r.id ≤ xs.foldl max x) := by
  have hle := le_foldl_max xs x
  constructor
  · have hmem : xs.foldl max x ∈ x :: xs := by
      rcases foldl_max_mem xs x with h | h
      · rw [h]
        exact List.mem_cons_self x xs
      · exact List.mem_cons_of_mem x h
    rw [← hids] at hmem
    obtain ⟨r, hr, hval⟩ := List.mem_map.mp hmem
    obtain ⟨hrrows, hnum⟩ := List.mem_filter.mp hr
    exact ⟨r, hrrows, hnum, hval⟩
  · intro r hr hnum
    have hmm : strVal r.id ∈ x :: xs := by
      rw [← hids]
      exact List.mem_map_of_mem _ (List.mem_filter.mpr ⟨hr, hnum⟩)
    rcases List.mem_cons.mp hmm with h | h
    · rw [h]
      exact hle.1
    · exact hle.2 _ h

/-- C1: `nextId` returns `"1"` on the empty sequence; on a sequence with at
least one numeric id it returns the decimal string of one plus the maximum
numeric id, ignoring non-numeric ids; but on a non-empty sequence in which
no id is numeric it raises `ValueError` (`max` of an empty list) instead of
returning a string — this last case corrects the claim. -/
theorem next_id_characterization (rows : List Row) :
    (rows = [] → next_id rows = some "1") ∧
    (rows ≠ [] → (∀ r ∈ rows, pyIsDigitStr r.id = false) → next_id rows = none) ∧
    (∀ m : Nat,
      (∃ r ∈ rows, pyIsDigitStr r.id = true ∧ strVal r.id = m) →
      (∀ r ∈ rows, pyIsDigitStr r.id = true → strVal r.id ≤ m) →
      next_id rows = some (pyStrNat (m + 1))) := by
  refine ⟨?_, ?_, ?_⟩
  · intro h
    rw [h]
    rfl
  · intro hne hall
    have hempty : rows.isEmpty = false := by
      cases rows with
      | nil => exact absurd rfl hne
      | cons a as => rfl
    have hfil : rows.filter (fun r => pyIsDigitStr r.id) = [] := by
      rw [List.filter_eq_nil_iff]
      intro r hr
      simp [hall r hr]
    rw [next_id, hempty, hfil]
    rfl
  · intro m hex hub
    obtain ⟨r0, hr0, hnum0, hval0⟩ := hex
    have hmem : strVal r0.id ∈ numericIds rows := by
      rw [numericIds]
      exact List.mem_map_of_mem _ (List.mem_filter.mpr ⟨hr0, hnum0⟩)
    have hempty : rows.isEmpty = false := by
      cases rows with
      | nil => cases hr0
      | cons a as => rfl
    cases hids : numericIds rows with
    | nil => rw [hids] at hmem; cases hmem
    | cons x xs =>
        obtain ⟨⟨r1, hr1, hnum1, hval1⟩, hub2⟩ := foldl_max_is_max rows x xs hids
        have heq : xs.foldl max x = m := by
          have h1 : xs.foldl max x ≤ m := hval1 ▸ hub r1 hr1 hnum1
          have h2 : m ≤ xs.foldl max x := hval0 ▸ hub2 r0 hr0 hnum0
          omega
        rw [next_id_eq_of_ids rows x xs hempty hids, heq]

/-- C1 counterexample: on a non-empty store none of whose ids is numeric the
code raises `ValueError` (modelled `none`) rather than ignoring the
non-numeric ids and returning an id string. -/
theorem next_id_raises_when_no_numeric_id :
    next_id [mkRow "x" "Ann" "" "O" ""] = none := by decide

/-- C1 witness: a store whose only id is `"3"` gets next id `"4"`. -/
theorem next_id_characterization_witness :
    next_id [mkRow "3" "Ann" "" "O" ""] = some "4" := by
  have h := (next_id_characterization [mkRow "3" "Ann" "" "O" ""]).2.2 3
    ⟨mkRow "3" "Ann" "" "O" "", by decide, by decide, by decide⟩
    (by decide)
  rw [h]
  decide

/-- C2 (amended): every id returned by `add` is a digit string strictly
greater, as a number, than every numeric id present in the store at the time
of the add, and it is appended to the store's id sequence. (Ids of records
deleted beforehand are not considered by the allocator, so they can be
reused — see the counterexample.) -/
theorem add_patient_eq (a : AddArgs) (now : String) (rows : List Row)
    (pid : String) (hn : next_id rows = some pid) :
    add_patient a now rows = some (rows ++ [addRecord a now pid], pid) := by
  rw [add_patient, hn]

theorem add_patient_fresh_id (a : AddArgs) (now : String) (rows rows2 : List Row)
    (pid : String) (h : add_patient a now rows = some (rows2, pid)) :
    pyIsDigitStr pid = true ∧
    (∀ r ∈ rows, pyIsDigitStr r.id = true → strVal r.id < strVal pid) ∧
    rows2.map Row.id = rows.map Row.id ++ [pid] := by
  cases hn : next_id rows with
  | none =>
      rw [add_patient, hn] at h
      exact Option.noConfusion h
  | some pid0 =>
      have h2 : (rows ++ [addRecord a now pid0], pid0) = (rows2, pid) :=
        Option.some.inj ((add_patient_eq a now rows pid0 hn).symm.trans h)
      have hrows2 : rows ++ [addRecord a now pid0] = rows2 := congrArg Prod.fst h2
      have hpid : pid0 = pid := congrArg Prod.snd h2
      have hmap : rows2.map Row.id = rows.map Row.id ++ [pid] := by
        rw [← hrows2, ← hpid]
        simp [addRecord]
      cases hrows : rows.isEmpty with
      | true =>
          have hrownil : rows = [] := List.isEmpty_iff.mp hrows
          have h1 : next_id rows = some "1" := by
            rw [hrownil]
            rfl
          have hpid1 : pid0 = "1" := Option.some.inj (hn.symm.trans h1)
          refine ⟨?_, ?_, hmap⟩
          · rw [← hpid, hpid1]
            decide
          · intro r hr
            rw [hrownil] at hr
            cases hr
      | false =>
          cases hids : numericIds rows with
          | nil =>
              rw [next_id, hrows] at hn
              rw [numericIds] at hids
              rw [hids] at hn
              exact Option.noConfusion hn
          | cons x xs =>
              have hsome := next_id_eq_of_ids rows x xs hrows hids
              have hpid0 : pid0 = pyStrNat (xs.foldl max x + 1) :=
                Option.some.inj (hn.symm.trans hsome)
              have hval : strVal pid = xs.foldl max x + 1 := by
                rw [← hpid, hpid0, strVal_pyStrNat]
              refine ⟨?_, ?_, hmap⟩
              · rw [← hpid, hpid0]
                exact pyIsDigitStr_pyStrNat _
              · intro r hr hnum
                have hub := (foldl_max_is_max rows x xs hids).2 r hr hnum
                omega

/-- The mutating operations a session can run against the store (read-only
commands do not change it); the timestamp of an `add` is passed alongside. -/
inductive Op where
  | add (a : AddArgs) (now : String)
  | del (target : String)

/-- Run a sequence of `add`/`delete` commands from a given store, collecting
the ids assigned by the `add`s; `none` models an uncaught `ValueError`. -/
def runOps : List Row → List Op → Option (List Row × List String)
  | rows, [] => some (rows, [])
  | rows, Op.add a now :: ops =>
      match add_patient a now rows with
      | none => none
      | some (rows2, pid) =>
          match runOps rows2 ops with
          | none => none
          | some (rows3, pids) => some (rows3, pid :: pids)
  | rows, Op.del t :: ops => runOps (delete_patient t rows).fst ops

/-- The `add` arguments used in the concrete traces: only a name. -/
def plainAdd (n : String) : AddArgs :=
  { name := n, age := none, gender := some "O", phone := none, meds := some "",
    appointments := some "", notes := some "" }

/-- C2 counterexample: starting from the empty store, `add`, `add`,
`delete 2`, `add` assigns the ids `1`, `2`, `2` — the deleted id `2` is
reused, so an id returned by `add` is not strictly greater than every id
previously assigned. -/
theorem add_reuses_deleted_id :
    (runOps []
        [Op.add (plainAdd "A") "T1", Op.add (plainAdd "B") "T2",
         Op.del "2", Op.add (plainAdd "C") "T3"]).map Prod.snd =
      some ["1", "2", "2"] := by decide

/-- C2 witness: adding to a store whose ids are `3` and `7` assigns the
digit-string id `8`, numerically above the stored id `7`. -/
theorem add_patient_fresh_id_witness :
    pyIsDigitStr "8" = true ∧
    strVal (mkRow "7" "Raj" "" "O" "").id < strVal "8" := by
  have h := add_patient_fresh_id (plainAdd "Bob") "T"
    [mkRow "3" "Ann" "" "O" "", mkRow "7" "Raj" "" "O" ""]
    ([mkRow "3" "Ann" "" "O" "", mkRow "7" "Raj" "" "O" ""] ++
      [addRecord (plainAdd "Bob") "T" "8"]) "8" (by decide)
  exact ⟨h.1, h.2.1 (mkRow "7" "Raj" "" "O" "") (by decide) (by decide)⟩

/-- C3 (amended): `search` returns exactly the rows, in file order, whose
lowercased name contains the lowercased query, or whose phone — as stored,
not lowercased — contains the lowercased query; meds and notes are never
consulted. (The source lowercases the query and the name but not the phone,
so phone matching is not case-insensitive.) -/
theorem search_patients_characterization (nameArg : Option String) (rows : List Row) :
    (∀ r, r ∈ search_patients nameArg rows ↔
        r ∈ rows ∧ (pyInStr (pyLower (orEmpty nameArg)) (pyLower r.name) = true ∨
          pyInStr (pyLower (orEmpty nameArg)) r.phone = true)) ∧
    (search_patients nameArg rows).Sublist rows := by
  constructor
  · intro r
    simp [search_patients, rowMatches, List.mem_filter, Bool.or_eq_true]
  · exact List.filter_sublist rows

/-- The row used in the C3 counterexample: an uppercase phone number field. -/
def upperPhoneRow : Row := mkRow "1" "zz" "" "O" "AB"

/-- C3 counterexample: with query `"AB"` and a row whose phone is `"AB"`,
the phone does contain the query case-insensitively (second conjunct), yet
`search` returns nothing, because the stored phone is compared against the
lowercased query without being lowercased itself. -/
theorem search_misses_uppercase_phone :
    search_patients (some "AB") [upperPhoneRow] = [] ∧
    pyInStr (pyLower "AB") (pyLower upperPhoneRow.phone) = true := by decide

/-- C3 witness: the query `"sha"` matches the name `"Asha"`. -/
theorem search_patients_characterization_witness :
    mkRow "1" "Asha" "" "F" "" ∈
      search_patients (some "sha") [mkRow "1" "Asha" "" "F" ""] :=
  ((search_patients_characterization (some "sha") [mkRow "1" "Asha" "" "F" ""]).1
      (mkRow "1" "Asha" "" "F" "")).mpr ⟨by decide, Or.inl (by decide)⟩

/-- C4: evaluating the add handler at a supplied age of `0` (a legal
non-negative integer) stores the age as `""`, not `"0"`: the source guards
the assignment with Python truthiness (`if args.age`), under which `0` is
indistinguishable from an absent age. The second conjunct shows that `"0"`
is the decimal string the claim requires. -/
theorem add_age_zero_stored_empty :
    (add_patient
        { name := "Zed", age := some 0, gender := some "O", phone := none,
          meds := some "", appointments := some "", notes := some "" }
        "T" []).map (fun p => p.fst.map Row.age) = some [""] ∧
    pyStrInt 0 = "0" := by decide

theorem keyRows_all_some (rows : List Row)
    (h : ∀ r ∈ rows, (pyIntParse r.id).isSome = true) :
    keyRows rows = some (rows.map (fun r => ((pyIntParse r.id).getD 0, r))) := by
  induction rows with
  | nil => rfl
  | cons r rest ih =>
      obtain ⟨k, hk⟩ := Option.isSome_iff_exists.mp (h r (List.mem_cons_self r rest))
      have hrest := ih (fun x hx => h x (List.mem_cons_of_mem r hx))
      simp [keyRows, hk, hrest]

/-- C5 (amended): when every id parses as an integer, `list` renders, one
line per record via `renderLine`, the prefix of the id-sorted store cut by
the slice `rows_sorted[:limit or 100]` — so a positive limit keeps that many
records, but a supplied limit of `0` is replaced by `100` (the effective
limit is `args.limit or 100`), and a negative limit drops records from the
end, Python-slice style. The `argparse` default for `--limit` is `20`. -/
theorem list_patients_spec (rows : List Row) (limit : Int)
    (h : ∀ r ∈ rows, (pyIntParse r.id).isSome = true) :
    ∃ rows_sorted : List Row,
      rows_sorted.Perm rows ∧
      List.Pairwise
        (fun r s => (pyIntParse r.id).getD 0 ≤ (pyIntParse s.id).getD 0) rows_sorted ∧
      list_patients limit rows =
        some ((pySlice rows_sorted (if limit = 0 then 100 else limit)).map renderLine) := by
  have hk := keyRows_all_some rows h
  set keyed := rows.map (fun r => ((pyIntParse r.id).getD 0, r)) with hkeyed
  have hmr : keyed.map Prod.snd = rows := by
    rw [hkeyed, List.map_map]
    simp [Function.comp_def]
  refine ⟨(keyed.insertionSort keyRel).map Prod.snd, ?_, ?_, ?_⟩
  · have hp := (List.perm_insertionSort keyRel keyed).map Prod.snd
    exact hmr ▸ hp
  · have hs : List.Pairwise keyRel (keyed.insertionSort keyRel) :=
      List.sorted_insertionSort keyRel keyed
    rw [List.pairwise_map]
    refine hs.imp_of_mem ?_
    intro a b ha hb hab
    have ha2 : a ∈ keyed := (List.perm_insertionSort keyRel keyed).subset ha
    have hb2 : b ∈ keyed := (List.perm_insertionSort keyRel keyed).subset hb
    rw [hkeyed] at ha2 hb2
    obtain ⟨r, _, hra⟩ := List.mem_map.mp ha2
    obtain ⟨r2, _, hrb⟩ := List.mem_map.mp hb2
    rw [← hra, ← hrb] at hab ⊢
    exact hab
  · simp only [list_patients, hk]

/-- C5 counterexample: with a supplied limit of `0`, `list` on a one-record
store renders one line, not the first `0` (i.e. zero) records: the handler
computes the effective limit as `args.limit or 100`, and `0` is falsy. -/
theorem list_limit_zero_renders_one_of_one :
    (list_patients 0 [mkRow "1" "Ann" "" "O" ""]).map List.length = some 1 := by
  decide

/-- C5 witness: listing a two-record store with limit `1` succeeds. -/
theorem list_patients_spec_witness :
    (list_patients 1 [mkRow "2" "Bob" "" "O" "", mkRow "1" "Ann" "" "O" ""]).isSome
      = true := by
  obtain ⟨rs, -, -, heq⟩ :=
    list_patients_spec [mkRow "2" "Bob" "" "O" "", mkRow "1" "Ann" "" "O" ""] 1
      (by decide)
  rw [heq]
  rfl

/-- C6 (amended): on the patched record, `updated_at` becomes `now` and `id`
and `created_at` are untouched; `age`, `meds`, `appointments` and `notes`
are overwritten exactly when supplied (`is not None`); but `name`, `gender`
and `phone` are guarded by Python truthiness, so supplying the empty string
leaves them unchanged. At store level: no match leaves the store unchanged
and reports false; the first match is patched in place and later rows are
untouched; an update supplying no fields changes only `updated_at`. -/
theorem update_patient_frame (a : UpdateArgs) (now : String) :
    (∀ r : Row,
      (applyUpdate a now r).id = r.id ∧
      (applyUpdate a now r).created_at = r.created_at ∧
      (applyUpdate a now r).updated_at = now ∧
      ((a.name = none ∨ a.name = some "") → (applyUpdate a now r).name = r.name) ∧
      (∀ s, a.name = some s → s ≠ "" → (applyUpdate a now r).name = s) ∧
      (a.age = none → (applyUpdate a now r).age = r.age) ∧
      (∀ n, a.age = some n → (applyUpdate a now r).age = pyStrInt n) ∧
      ((a.gender = none ∨ a.gender = some "") →
        (applyUpdate a now r).gender = r.gender) ∧
      (∀ s, a.gender = some s → s ≠ "" → (applyUpdate a now r).gender = s) ∧
      ((a.phone = none ∨ a.phone = some "") → (applyUpdate a now r).phone = r.phone) ∧
      (∀ s, a.phone = some s → s ≠ "" → (applyUpdate a now r).phone = s) ∧
      (a.meds = none → (applyUpdate a now r).meds = r.meds) ∧
      (∀ s, a.meds = some s → (applyUpdate a now r).meds = s) ∧
      (a.appointments = none →
        (applyUpdate a now r).appointments = r.appointments) ∧
      (∀ s, a.appointments = some s → (applyUpdate a now r).appointments = s) ∧
      (a.notes = none → (applyUpdate a now r).notes = r.notes) ∧
      (∀ s, a.notes = some s → (applyUpdate a now r).notes = s)) ∧
    (a.name = none → a.age = none → a.gender = none → a.phone = none →
      a.meds = none → a.appointments = none → a.notes = none →
      ∀ r, applyUpdate a now r = { r with updated_at := now }) ∧
    (∀ rows, (∀ x ∈ rows, x.id ≠ a.id) → update_patient a now rows = (rows, false)) ∧
    (∀ pre r post, (∀ x ∈ pre, x.id ≠ a.id) → r.id = a.id →
      update_patient a now (pre ++ r :: post) =
        (pre ++ applyUpdate a now r :: post, true)) := by
  refine ⟨?_, ?_, ?_, ?_⟩
  · intro r
    refine ⟨rfl, rfl, rfl, ?_, ?_, ?_, ?_, ?_, ?_, ?_, ?_, ?_, ?_, ?_, ?_, ?_, ?_⟩
    · rintro (h | h) <;> simp [applyUpdate, h]
    · intro s hs hne
      simp [applyUpdate, hs, hne]
    · intro h
      simp [applyUpdate, h]
    · intro n hn
      simp [applyUpdate, hn]
    · rintro (h | h) <;> simp [applyUpdate, h]
    · intro s hs hne
      simp [applyUpdate, hs, hne]
    · rintro (h | h) <;> simp [applyUpdate, h]
    · intro s hs hne
      simp [applyUpdate, hs, hne]
    · intro h
      simp [applyUpdate, h]
    · intro s hs
      simp [applyUpdate, hs]
    · intro h
      simp [applyUpdate, h]
    · intro s hs
      simp [applyUpdate, hs]
    · intro h
      simp [applyUpdate, h]
    · intro s hs
      simp [applyUpdate, hs]
  · intro h1 h2 h3 h4 h5 h6 h7 r
    simp [applyUpdate, h1, h2, h3, h4, h5, h6, h7]
  · intro rows h
    induction rows with
    | nil => rfl
    | cons r rest ih =>
        have hne := h r (List.mem_cons_self r rest)
        have hrest := ih (fun x hx => h x (List.mem_cons_of_mem r hx))
        simp [update_patient, hne, hrest]
  · intro pre r post hpre hr
    induction pre with
    | nil => simp [update_patient, hr]
    | cons x xs ih =>
        have hx := hpre x (List.mem_cons_self x xs)
        have hxs := ih (fun y hy => hpre y (List.mem_cons_of_mem x hy))
        simp [update_patient, hx, hxs]

/-- The update arguments of the C6 counterexample: only `--phone ""` supplied. -/
def emptyPhonePatch : UpdateArgs :=
  { id := "1", name := none, age := none, gender := none, phone := some "",
    meds := none, appointments := none, notes := none }

/-- The row the C6 counterexample updates: its phone is `"123"`. -/
def phoneRow : Row := mkRow "1" "Ann" "" "O" "123"

/-- C6 counterexample: an update supplying the phone field with `""` leaves
the phone `"123"` in place (Python truthiness: `if args.phone:` is false for
the empty string), though the claim requires every supplied field to be
overwritten with the supplied value. -/
theorem update_empty_phone_not_applied :
    (update_patient emptyPhonePatch "T" [phoneRow]).fst.map Row.phone = ["123"] ∧
    (update_patient emptyPhonePatch "T" [phoneRow]).snd = true ∧
    emptyPhonePatch.phone = some "" := by decide

/-- The update arguments of the C6 witness: a new name. -/
def namePatch : UpdateArgs :=
  { id := "1", name := some "Anna", age := none, gender := none, phone := none,
    meds := none, appointments := none, notes := none }

/-- C6 witness: updating the single matching row patches it in place. -/
theorem update_patient_frame_witness :
    update_patient namePatch "T" ([] ++ phoneRow :: []) =
      ([] ++ applyUpdate namePatch "T" phoneRow :: [], true) :=
  (update_patient_frame namePatch "T").2.2.2 [] phoneRow []
    (by intro x hx; cases hx) (by decide)

theorem delete_filter_length (t : String) (rows : List Row) :
    (rows.filter (fun r => decide (r.id ≠ t))).length
      + rows.countP (fun r => decide (r.id = t)) = rows.length := by
  induction rows with
  | nil => rfl
  | cons r rest ih =>
      by_cases h : r.id = t
      · have hf : List.filter (fun x => decide (x.id ≠ t)) (r :: rest)
            = List.filter (fun x => decide (x.id ≠ t)) rest := by
          simp [List.filter_cons, h]
        have hc : List.countP (fun x => decide (x.id = t)) (r :: rest)
            = List.countP (fun x => decide (x.id = t)) rest + 1 := by
          simp [List.countP_cons, h]
        rw [hf, hc, List.length_cons]
        omega
      · have hf : List.filter (fun x => decide (x.id ≠ t)) (r :: rest)
            = r :: List.filter (fun x => decide (x.id ≠ t)) rest := by
          simp [List.filter_cons, h]
        have hc : List.countP (fun x => decide (x.id = t)) (r :: rest)
            = List.countP (fun x => decide (x.id = t)) rest := by
          simp [List.countP_cons, h]
        rw [hf, hc, List.length_cons, List.length_cons]
        omega

theorem countP_id_eq_one (t : String) (rows : List Row)
    (hnd : (rows.map Row.id).Nodup) (r : Row) (hr : r ∈ rows) (hid : r.id = t) :
    rows.countP (fun x => decide (x.id = t)) = 1 := by
  induction rows with
  | nil => cases hr
  | cons x xs ih =>
      rw [List.map_cons, List.nodup_cons] at hnd
      obtain ⟨hx, hxs⟩ := hnd
      rcases List.mem_cons.mp hr with hrx | hrx
      · have hxid : x.id = t := hrx ▸ hid
        have hz : xs.countP (fun y => decide (y.id = t)) = 0 := by
          rw [List.countP_eq_zero]
          intro y hy
          simp only [decide_eq_true_eq]
          intro hyt
          apply hx
          rw [hxid, ← hyt]
          exact List.mem_map_of_mem Row.id hy
        simp [List.countP_cons, hxid, hz]
      · have hxid : x.id ≠ t := by
          intro hxt
          apply hx
          rw [hxt, ← hid]
          exact List.mem_map_of_mem Row.id hrx
        simp [List.countP_cons, hxid, ih hxs hrx]

/-- C7 (amended): deleting an id absent from the store leaves the store
unchanged (the file is not rewritten) and reports not-found; deleting a
present id keeps exactly the rows with a different id and reports success,
so the record count drops by the number of rows carrying that id — which is
exactly one whenever ids are unique, as the add path constructs them, but
more when the store holds duplicate ids. -/
theorem delete_patient_spec (t : String) (rows : List Row) :
    ((∀ r ∈ rows, r.id ≠ t) → delete_patient t rows = (rows, false)) ∧
    ((∃ r ∈ rows, r.id = t) →
      (delete_patient t rows).snd = true ∧
      (delete_patient t rows).fst = rows.filter (fun r => decide (r.id ≠ t)) ∧
      (delete_patient t rows).fst.length
        + rows.countP (fun r => decide (r.id = t)) = rows.length) ∧
    ((rows.map Row.id).Nodup → (∃ r ∈ rows, r.id = t) →
      (delete_patient t rows).fst.length + 1 = rows.length) := by
  have hlen := delete_filter_length t rows
  refine ⟨?_, ?_, ?_⟩
  · intro h
    have hfil : rows.filter (fun r => decide (r.id ≠ t)) = rows :=
      List.filter_eq_self.mpr (fun r hr => by simpa using h r hr)
    rw [delete_patient, hfil, if_pos rfl]
  · intro hex
    obtain ⟨r, hr, hid⟩ := hex
    have hpos : 0 < rows.countP (fun x => decide (x.id = t)) :=
      List.countP_pos_iff.mpr ⟨r, hr, by simpa using hid⟩
    have hne : (rows.filter (fun x => decide (x.id ≠ t))).length ≠ rows.length := by
      omega
    rw [delete_patient, if_neg hne]
    exact ⟨rfl, rfl, hlen⟩
  · intro hnd hex
    obtain ⟨r, hr, hid⟩ := hex
    have h1 := countP_id_eq_one t rows hnd r hr hid
    have hpos : 0 < rows.countP (fun x => decide (x.id = t)) := by omega
    have hne : (rows.filter (fun x => decide (x.id ≠ t))).length ≠ rows.length := by
      omega
    rw [delete_patient, if_neg hne]
    show (rows.filter (fun r => decide (r.id ≠ t))).length + 1 = rows.length
    omega

/-- The store with a duplicated id used in the C7 counterexample. -/
def dupIdRows : List Row := [mkRow "1" "A" "" "O" "", mkRow "1" "B" "" "O" ""]

/-- C7 counterexample: on a store holding two records with id `"1"`,
deleting id `"1"` removes both, so the record count drops by two, not by
exactly one as the claim states for every store contents. -/
theorem delete_removes_both_duplicates :
    delete_patient "1" dupIdRows = ([], true) ∧ dupIdRows.length = 2 := by decide

/-- C7 witness: deleting the only record of a singleton store drops the
count from one to zero. -/
theorem delete_patient_spec_witness :
    (delete_patient "1" [phoneRow]).fst.length + 1 = [phoneRow].length :=
  (delete_patient_spec "1" [phoneRow]).2.2 (by decide)
    ⟨phoneRow, by decide, by decide⟩

theorem jsonToRow_rowToJson (r : Row) : jsonToRow (rowToJson r) = some r := rfl

theorem decodeRowList_map (rows : List Row) :
    decodeRowList (rows.map rowToJson) = some rows := by
  induction rows with
  | nil => rfl
  | cons r rest ih =>
      rw [List.map_cons, decodeRowList, jsonToRow_rowToJson, ih]

/-- C8: exporting any store contents — the empty store included — and
parsing the produced JSON back yields exactly the ordered sequence of
records `read_all` returned, field for field, every value a string (the
decoder only accepts string values). -/
theorem export_roundtrip (rows : List Row) :
    jsonToRows (export_data rows) = some rows :=
  decodeRowList_map rows

theorem keyRows_eq_none (rows : List Row) (r : Row) (hr : r ∈ rows)
    (hbad : pyIntParse r.id = none) : keyRows rows = none := by
  induction rows with
  | nil => cases hr
  | cons x xs ih =>
      rcases List.mem_cons.mp hr with hrx | hrx
      · rw [keyRows, ← hrx, hbad]
      · cases hx : pyIntParse x.id with
        | none => rw [keyRows, hx]
        | some k => rw [keyRows, hx, ih hrx]

/-- C10: `list` is total exactly under the precondition that every stored
id parses as an integer: a store containing a record whose id does not
parse makes the sort key computation raise (`none`), while stores whose
ids all parse are listed successfully. -/
theorem list_patients_total_iff (rows : List Row) (limit : Int) :
    ((∃ r ∈ rows, pyIntParse r.id = none) → list_patients limit rows = none) ∧
    ((∀ r ∈ rows, (pyIntParse r.id).isSome = true) →
      (list_patients limit rows).isSome = true) := by
  constructor
  · intro hex
    obtain ⟨r, hr, hbad⟩ := hex
    rw [list_patients, keyRows_eq_none rows r hr hbad]
  · intro h
    rw [list_patients, keyRows_all_some rows h]
    rfl

/-- C10 witness: a store holding the non-numeric id `"abc"` makes `list`
raise, while the code path is exercised at the default limit `20`. -/
theorem list_patients_total_iff_witness :
    list_patients 20 [mkRow "abc" "Ann" "" "O" ""] = none :=
  (list_patients_total_iff [mkRow "abc" "Ann" "" "O" ""] 20).1
    ⟨mkRow "abc" "Ann" "" "O" "", by decide, by decide⟩

/-- C9 (amended): `stats` reports the total count over all records, and the
mean of the ages over exactly the records whose age passes `isdigit` — a
non-empty string of decimal digits, hence a non-negative integer; ages that
parse as negative integers count as non-numeric and are excluded, which
corrects the claim's "parses as an integer". When no age passes `isdigit`
the average is the unavailable marker `none` (printed `"-"`). -/
theorem stats_spec (rows : List Row) :
    (stats rows).fst = rows.length ∧
    ((stats rows).snd = none ↔ ∀ r ∈ rows, pyIsDigitStr r.age = false) ∧
    (rows.filter (fun r => pyIsDigitStr r.age) ≠ [] →
      (stats rows).snd =
        some ((((rows.filter (fun r => pyIsDigitStr r.age)).map
            (fun r => strVal r.age)).sum : ℚ) /
          ((rows.filter (fun r => pyIsDigitStr r.age)).length : ℚ))) ∧
    (∀ q, (stats rows).snd = some q →
      q * ((rows.filter (fun r => pyIsDigitStr r.age)).length : ℚ) =
        (((rows.filter (fun r => pyIsDigitStr r.age)).map
            (fun r => strVal r.age)).sum : ℚ)) := by
  cases hl : rows.filter (fun r => pyIsDigitStr r.age) with
  | nil =>
      have hs : (stats rows).snd = none := by simp [stats, hl]
      refine ⟨rfl, ?_, ?_, ?_⟩
      · rw [hs]
        constructor
        · intro _ r hr
          have hn := List.filter_eq_nil_iff.mp hl r hr
          simpa using hn
        · intro _
          rfl
      · intro hne
        exact absurd rfl hne
      · intro q hq
        rw [hs] at hq
        cases hq
  | cons x xs =>
      have hx : x ∈ rows.filter (fun r => pyIsDigitStr r.age) := by
        rw [hl]
        exact List.mem_cons_self x xs
      have hs : (stats rows).snd =
          some ((((x :: xs).map (fun r => strVal r.age)).sum : ℚ) /
            (((x :: xs).length : ℚ))) := by
        simp [stats, hl]
      refine ⟨rfl, ?_, ?_, ?_⟩
      · constructor
        · intro h
          rw [hs] at h
          cases h
        · intro hall
          exfalso
          have hxd := (List.mem_filter.mp hx).2
          rw [hall x (List.mem_filter.mp hx).1] at hxd
          cases hxd
      · intro _
        exact hs
      · intro q hq
        have hq2 : ((((x :: xs).map (fun r => strVal r.age)).sum : ℚ) /
            (((x :: xs).length : ℚ))) = q := Option.some.inj (hs.symm.trans hq)
        have hlen : (((x :: xs).length : ℚ)) ≠ 0 := by
          rw [List.length_cons]
          exact_mod_cast Nat.succ_ne_zero xs.length
        rw [← hq2, div_mul_cancel₀ _ hlen]

/-- A record whose age field is a negative integer literal. -/
def negAgeRow : Row := mkRow "1" "Ann" "-5" "O" ""

/-- C9 counterexample: a store whose only record has age `"-5"` — a string
that parses as the integer `-5` (second conjunct) — is reported with the
unavailable average marker, because the code filters ages with `isdigit`,
which rejects negative numbers; the claim's "parses as an integer" criterion
would instead demand an average of `-5.0`. -/
theorem stats_excludes_negative_age :
    stats [negAgeRow] = (1, none) ∧ pyIntParse "-5" = some (-5) := by decide

/-- The store of the specification's stats example: ages 30, "-", 40. -/
def ex9rows : List Row :=
  [mkRow "1" "A" "30" "O" "", mkRow "2" "B" "-" "O" "", mkRow "3" "C" "40" "O" ""]

/-- C9 witness: the spec example — ages `[30, "-", 40]` give total `3` and
average `35`. -/
theorem stats_spec_witness :
    (stats ex9rows).fst = 3 ∧
    (stats ex9rows).snd =
      some ((((ex9rows.filter (fun r => pyIsDigitStr r.age)).map
          (fun r => strVal r.age)).sum : ℚ) /
        ((ex9rows.filter (fun r => pyIsDigitStr r.age)).length : ℚ)) ∧
    ((((ex9rows.filter (fun r => pyIsDigitStr r.age)).map
          (fun r => strVal r.age)).sum : ℚ) /
        ((ex9rows.filter (fun r => pyIsDigitStr r.age)).length : ℚ)) = 35 := by
  refine ⟨(stats_spec ex9rows).1.trans (by decide),
    (stats_spec ex9rows).2.2.1 (by decide), ?_⟩
  rw [show ((ex9rows.filter (fun r => pyIsDigitStr r.age)).map
        (fun r => strVal r.age)).sum = 70 from by decide,
      show (ex9rows.filter (fun r => pyIsDigitStr r.age)).length = 2 from by decide]
  norm_num
